import Mathlib

/-!
Verification of the schema-flattening core of
`crates/polars-parquet/src/parquet/metadata/schema_descriptor.rs`.

The file embeds the Rust source shallowly: the type tree, the recursive
flattening `build_tree`, the `SchemaDescriptor` aggregate and its boundary
conversions, together with specification-side enumerations used to state
the properties of the flattening.
-/

namespace PolarsParquet

/-- Repetition kind of a field: Required, Optional, or Repeated. -/
inductive Repetition where
  | required
  | optional
  | repeated
deriving DecidableEq

/-- Modelled from the spec: the physical type carried by a primitive node
(`crate::parquet::schema::types` is not part of this source slice; the spec
only requires an opaque physical-type payload). -/
inductive PhysicalType where
  | boolean
  | int32
  | int64
  | int96
  | float
  | double
  | byteArray
  | fixedLenByteArray (n : Nat)
deriving DecidableEq

/-- Modelled from the spec: name, repetition and optional numeric id of a
tree node (`FieldInfo` of `crate::parquet::schema::types`, outside src). -/
structure FieldInfo where
  name : String
  repetition : Repetition
  id : Option Int
deriving DecidableEq

/-- Modelled from the spec: a primitive node's own data — field info, the
opaque logical/converted annotations (represented by opaque numerals, since
no claim inspects their structure), and the physical type. -/
structure PrimitiveType where
  field_info : FieldInfo
  logical_type : Option Nat
  converted_type : Option Nat
  physical_type : PhysicalType
deriving DecidableEq

/-- Modelled from the spec: the Type Tree,
`node ::= Primitive\x7b...\x7d | Group\x7b..., children: ordered<node>\x7d`
(`ParquetType` of `crate::parquet::schema::types`, outside src). -/
inductive ParquetType where
  | primitiveType (p : PrimitiveType)
  | groupType (field_info : FieldInfo) (logical_type : Option Nat)
      (converted_type : Option Nat) (fields : List ParquetType)

/-- Field info of a node, primitive or group. -/
def ParquetType.get_field_info : ParquetType → FieldInfo
  | .primitiveType p => p.field_info
  | .groupType fi _ _ _ => fi

/-- Name of a node. -/
def ParquetType.name (t : ParquetType) : String :=
  t.get_field_info.name

/-- Whether a node is a group. -/
def ParquetType.is_group : ParquetType → Bool
  | .primitiveType _ => false
  | .groupType _ _ _ _ => true

/-- Modelled from the spec: the schema-validity error type
(`ParquetError` of `crate::parquet::error`, outside src); `oos` is the
out-of-spec constructor used by `ParquetError::oos`. -/
inductive ParquetError where
  | oos (message : String)
deriving DecidableEq

/-- Modelled from the spec: the per-leaf record of primitive type and
maximum definition/repetition levels (`Descriptor` of
`super::column_descriptor`, outside src). -/
structure Descriptor where
  primitive_type : PrimitiveType
  max_def_level : Int
  max_rep_level : Int

/-- Modelled from the spec: the structural context of a leaf — either an
exclusively-owned copy of a tree node or a shared handle to a promoted copy
(`BaseType` of `super::column_descriptor`, outside src). -/
inductive BaseType where
  | owned (t : ParquetType)
  | shared (t : ParquetType)

/-- Promotion of a structural context to a shared handle; promoting an
already-shared handle is the identity. -/
def BaseType.into_arc : BaseType → BaseType
  | .owned t => .shared t
  | .shared t => .shared t

/-- Modelled from the spec: a flattened leaf column record
(`ColumnDescriptor` of `super::column_descriptor`, outside src). -/
structure ColumnDescriptor where
  descriptor : Descriptor
  path_in_schema : List String
  base_type : BaseType

/-- Constructor mirroring `ColumnDescriptor::new`. -/
def ColumnDescriptor.new (descriptor : Descriptor) (path_in_schema : List String)
    (base_type : BaseType) : ColumnDescriptor :=
  ⟨descriptor, path_in_schema, base_type⟩

mutual

/-- Embedding of `build_tree` (schema_descriptor.rs lines 100-148): pushes
the node's name on the path, applies the node's repetition to the running
levels, emits a leaf for a primitive, and recurses into a group's children
with the promoted shared context. The mutable accumulators of the source
become the returned list of leaves and the path argument. -/
def build_tree (tp : ParquetType) (base_tp : BaseType)
    (max_rep_level max_def_level : Int) (path_so_far : List String) :
    List ColumnDescriptor :=
  let path2 := path_so_far ++ [tp.name]
  let levels :=
    match tp.get_field_info.repetition with
    | .optional => (max_rep_level, max_def_level + 1)
    | .repeated => (max_rep_level + 1, max_def_level + 1)
    | .required => (max_rep_level, max_def_level)
  match tp with
  | .primitiveType p =>
      [ColumnDescriptor.new ⟨p, levels.2, levels.1⟩ path2 base_tp]
  | .groupType _ _ _ fields =>
      build_forest fields base_tp.into_arc levels.1 levels.2 path2

/-- The loop of `build_tree`'s group arm over the children, in order; the
source's `path_so_far.pop()` after each child corresponds to every sibling
receiving the same `path2`. -/
def build_forest (fs : List ParquetType) (base_tp : BaseType)
    (max_rep_level max_def_level : Int) (path2 : List String) :
    List ColumnDescriptor :=
  match fs with
  | [] => []
  | f :: rest =>
      build_tree f base_tp max_rep_level max_def_level path2 ++
        build_forest rest base_tp max_rep_level max_def_level path2

end

/-- The schema descriptor aggregate: name, top-level fields, derived leaves. -/
structure SchemaDescriptor where
  name : String
  fields : List ParquetType
  leaves : List ColumnDescriptor

/-- Embedding of `SchemaDescriptor::new` (lines 28-40): each top-level field
is flattened with a fresh empty path and an owned copy of itself as context,
and the leaves accumulate in field order. -/
def SchemaDescriptor.new (name : String) (fields : List ParquetType) :
    SchemaDescriptor :=
  { name := name
    fields := fields
    leaves := fields.flatMap (fun f => build_tree f (.owned f) 0 0 []) }

/-! ### Specification-side enumeration of leaves

`leaf_specs` formalises the spec's pre-order depth-first enumeration of the
primitive nodes of a tree, pairing each primitive with the ordered list of
node names and node repetitions on the path from the tree's root down to
and including the primitive itself. -/

/-- A specification-side leaf: the names and repetitions along the path
from the containing top-level field down to the primitive, inclusive, and
the primitive itself. -/
structure LeafSpec where
  names : List String
  reps : List Repetition
  prim : PrimitiveType

mutual

/-- Pre-order enumeration of the primitives of a tree with their paths. -/
def leaf_specs : ParquetType → List LeafSpec
  | .primitiveType p =>
      [⟨[p.field_info.name], [p.field_info.repetition], p⟩]
  | .groupType fi _ _ fields =>
      (leaf_specs_forest fields).map
        (fun s => ⟨fi.name :: s.names, fi.repetition :: s.reps, s.prim⟩)

/-- Pre-order enumeration over an ordered forest. -/
def leaf_specs_forest : List ParquetType → List LeafSpec
  | [] => []
  | f :: rest => leaf_specs f ++ leaf_specs_forest rest

end

/-- Contribution of one node's repetition to the maximum definition level:
one for Optional or Repeated, zero for Required. -/
def def_inc : Repetition → Int
  | .required => 0
  | .optional => 1
  | .repeated => 1

/-- Contribution of one node's repetition to the maximum repetition level:
one for Repeated only. -/
def rep_inc : Repetition → Int
  | .required => 0
  | .optional => 0
  | .repeated => 1

/-- Number of Optional-or-Repeated nodes along a path of repetitions. -/
def def_count (reps : List Repetition) : Int :=
  (reps.map def_inc).sum

/-- Number of Repeated nodes along a path of repetitions. -/
def rep_count (reps : List Repetition) : Int :=
  (reps.map rep_inc).sum

/-- The structural context every leaf of `build_tree tp base _ _ _`
receives: the untouched `base` when `tp` is itself primitive, and the
promoted `base.into_arc` when `tp` is a group. -/
def context_of (tp : ParquetType) (base : BaseType) : BaseType :=
  match tp with
  | .primitiveType _ => base
  | .groupType _ _ _ _ => base.into_arc

theorem into_arc_idem (base : BaseType) :
    base.into_arc.into_arc = base.into_arc := by
  cases base <;> rfl

theorem def_count_nil : def_count [] = 0 := rfl

theorem def_count_cons (r : Repetition) (l : List Repetition) :
    def_count (r :: l) = def_inc r + def_count l := by
  simp [def_count]

theorem rep_count_nil : rep_count [] = 0 := rfl

theorem rep_count_cons (r : Repetition) (l : List Repetition) :
    rep_count (r :: l) = rep_inc r + rep_count l := by
  simp [rep_count]

mutual

/-- Bridge between the source's `build_tree` and the specification-side
enumeration: levels are the inherited levels plus the path counts, the
stored path is the inherited path extended by the in-tree path, and the
context is `context_of`. -/
theorem build_tree_spec (tp : ParquetType) (base : BaseType) (r d : Int)
    (path : List String) :
    build_tree tp base r d path =
      (leaf_specs tp).map (fun s =>
        ColumnDescriptor.new ⟨s.prim, d + def_count s.reps, r + rep_count s.reps⟩
          (path ++ s.names) (context_of tp base)) := by
  match tp with
  | .primitiveType p =>
      cases hrep : p.field_info.repetition <;>
        simp [build_tree, leaf_specs, context_of, ParquetType.name,
          ParquetType.get_field_info, hrep, def_count_cons, def_count_nil,
          rep_count_cons, rep_count_nil, def_inc, rep_inc]
  | .groupType fi lt ct fields =>
      have hforest := build_forest_spec fields base.into_arc (into_arc_idem base)
      cases hrep : fi.repetition <;>
        simp [build_tree, leaf_specs, context_of, ParquetType.name,
          ParquetType.get_field_info, hrep, hforest, def_count_cons,
          rep_count_cons, def_inc, rep_inc, List.map_map, Function.comp_def]
      all_goals
        intro a ha
        simp only [ColumnDescriptor.new, ColumnDescriptor.mk.injEq,
          Descriptor.mk.injEq, true_and, and_true]
        omega

/-- Forest version of the bridge, for an already-shared context. -/
theorem build_forest_spec (fs : List ParquetType) (base : BaseType)
    (hb : base.into_arc = base) (r d : Int) (path : List String) :
    build_forest fs base r d path =
      (leaf_specs_forest fs).map (fun s =>
        ColumnDescriptor.new ⟨s.prim, d + def_count s.reps, r + rep_count s.reps⟩
          (path ++ s.names) base) := by
  match fs with
  | [] => simp [build_forest, leaf_specs_forest]
  | f :: rest =>
      have hhead := build_tree_spec f base r d path
      have htail := build_forest_spec rest base hb r d path
      have hcontext : context_of f base = base := by
        cases f <;> simp [context_of, hb]
      simp [build_forest, leaf_specs_forest, hhead, htail, hcontext]

end

theorem leaf_specs_forest_eq (fs : List ParquetType) :
    leaf_specs_forest fs = fs.flatMap leaf_specs := by
  induction fs with
  | nil => rfl
  | cons f rest ih => simp [leaf_specs_forest, ih]

/-- The leaves of a constructed descriptor, expressed through the
specification-side enumeration: counts start at zero, paths start at the
top-level field, and the context is an owned copy of the top-level field
promoted on first descent into a group. -/
theorem new_leaves_spec (name : String) (fields : List ParquetType) :
    (SchemaDescriptor.new name fields).leaves =
      fields.flatMap (fun f => (leaf_specs f).map (fun s =>
        ColumnDescriptor.new ⟨s.prim, def_count s.reps, rep_count s.reps⟩
          s.names (context_of f (.owned f)))) := by
  simp only [SchemaDescriptor.new]
  refine congrArg fields.flatMap (funext fun f => ?_)
  rw [build_tree_spec]
  simp

mutual

/-- Pre-order depth-first enumeration of the primitive nodes of a tree. -/
def prims_of : ParquetType → List PrimitiveType
  | .primitiveType p => [p]
  | .groupType _ _ _ fields => prims_of_forest fields

/-- Pre-order depth-first enumeration of the primitive nodes of a forest. -/
def prims_of_forest : List ParquetType → List PrimitiveType
  | [] => []
  | f :: rest => prims_of f ++ prims_of_forest rest

end

mutual

theorem leaf_specs_prims (tp : ParquetType) :
    (leaf_specs tp).map (fun s => s.prim) = prims_of tp := by
  match tp with
  | .primitiveType p => rfl
  | .groupType fi lt ct fields =>
      have h := leaf_specs_forest_prims fields
      simp [leaf_specs, prims_of, List.map_map, Function.comp_def, h]

theorem leaf_specs_forest_prims (fs : List ParquetType) :
    (leaf_specs_forest fs).map (fun s => s.prim) = prims_of_forest fs := by
  match fs with
  | [] => rfl
  | f :: rest =>
      have h1 := leaf_specs_prims f
      have h2 := leaf_specs_forest_prims rest
      simp [leaf_specs_forest, prims_of_forest, h1, h2]

end

/-- C1: every emitted leaf's max_def_level is the number of
Optional-or-Repeated nodes on the path from its top-level field down to and
including the leaf, and its max_rep_level is the number of Repeated nodes
on that path, the pair being the running (rep, def) counts current at the
primitive after its own adjustment. -/
theorem c1_leaf_levels (name : String) (fields : List ParquetType) :
    (SchemaDescriptor.new name fields).leaves.map
        (fun cd => (cd.descriptor.max_def_level, cd.descriptor.max_rep_level)) =
      (leaf_specs_forest fields).map
        (fun s => (def_count s.reps, rep_count s.reps)) := by
  rw [new_leaves_spec, leaf_specs_forest_eq]
  simp [List.map_flatMap, List.map_map, Function.comp_def, ColumnDescriptor.new]

/-- C2: construction is total, and the leaves list is exactly the pre-order
depth-first enumeration of the primitive nodes of the fields forest; its
length is the number of primitive nodes, and empty fields yield no leaves. -/
theorem c2_leaves_enumeration (name : String) (fields : List ParquetType) :
    ((SchemaDescriptor.new name fields).leaves.map
        (fun cd => cd.descriptor.primitive_type) = prims_of_forest fields)
    ∧ (SchemaDescriptor.new name fields).leaves.length
        = (prims_of_forest fields).length
    ∧ (SchemaDescriptor.new name []).leaves = [] := by
  have henum : (SchemaDescriptor.new name fields).leaves.map
      (fun cd => cd.descriptor.primitive_type) = prims_of_forest fields := by
    rw [new_leaves_spec, ← leaf_specs_forest_prims fields, leaf_specs_forest_eq]
    simp [List.map_flatMap, List.map_map, Function.comp_def, ColumnDescriptor.new]
  refine ⟨henum, ?_, rfl⟩
  calc (SchemaDescriptor.new name fields).leaves.length
      = ((SchemaDescriptor.new name fields).leaves.map
          (fun cd => cd.descriptor.primitive_type)).length := by
        simp
    _ = (prims_of_forest fields).length := by rw [henum]

/-- C3: the stored path of every leaf is the ordered list of node names
from the top-level field containing the leaf down to and including the leaf
itself, sibling subtrees being enumerated independently. -/
theorem c3_leaf_paths (name : String) (fields : List ParquetType) :
    (SchemaDescriptor.new name fields).leaves.map
        (fun cd => cd.path_in_schema) =
      (leaf_specs_forest fields).map (fun s => s.names) := by
  rw [new_leaves_spec, leaf_specs_forest_eq]
  simp [List.map_flatMap, List.map_map, Function.comp_def, ColumnDescriptor.new]

theorem rep_inc_le_def_inc (r : Repetition) : rep_inc r ≤ def_inc r := by
  cases r <;> decide

theorem rep_count_le_def_count (reps : List Repetition) :
    rep_count reps ≤ def_count reps := by
  induction reps with
  | nil => simp [rep_count, def_count]
  | cons r rest ih =>
      rw [rep_count_cons, def_count_cons]
      have := rep_inc_le_def_inc r
      omega

theorem def_count_append (p q : List Repetition) :
    def_count (p ++ q) = def_count p + def_count q := by
  simp [def_count]

theorem rep_count_append (p q : List Repetition) :
    rep_count (p ++ q) = rep_count p + rep_count q := by
  simp [rep_count]

theorem def_count_nonneg (reps : List Repetition) : 0 ≤ def_count reps := by
  induction reps with
  | nil => simp [def_count]
  | cons r rest ih =>
      rw [def_count_cons]
      cases r <;> simp [def_inc] <;> omega

theorem rep_count_nonneg (reps : List Repetition) : 0 ≤ rep_count reps := by
  induction reps with
  | nil => simp [rep_count]
  | cons r rest ih =>
      rw [rep_count_cons]
      cases r <;> simp [rep_inc] <;> omega

/-- C6 (amended): every Column Descriptor of a constructed schema satisfies
max_rep_level ≤ max_def_level, and along any root-to-leaf path both running
counts are monotonically non-decreasing: extending a path never decreases
either count. -/
theorem c6_level_invariants :
    (∀ (name : String) (fields : List ParquetType) (cd : ColumnDescriptor),
        cd ∈ (SchemaDescriptor.new name fields).leaves →
          cd.descriptor.max_rep_level ≤ cd.descriptor.max_def_level)
    ∧ (∀ p q : List Repetition,
        def_count p ≤ def_count (p ++ q) ∧ rep_count p ≤ rep_count (p ++ q)) := by
  constructor
  · intro name fields cd hcd
    rw [new_leaves_spec, List.mem_flatMap] at hcd
    obtain ⟨f, _, hmem⟩ := hcd
    obtain ⟨s, _, rfl⟩ := List.mem_map.mp hmem
    simpa [ColumnDescriptor.new] using rep_count_le_def_count s.reps
  · intro p q
    rw [def_count_append, rep_count_append]
    have h1 := def_count_nonneg q
    have h2 := rep_count_nonneg q
    omega

/-- C6 counterexample to the claim as stated: it is not the case that some
schema yields a leaf with max_def_level < max_rep_level — the inequality
max_rep_level ≤ max_def_level holds for every leaf of every schema. -/
theorem c6_claim_false :
    ¬ ∃ (name : String) (fields : List ParquetType) (cd : ColumnDescriptor),
        cd ∈ (SchemaDescriptor.new name fields).leaves
          ∧ cd.descriptor.max_def_level < cd.descriptor.max_rep_level := by
  rintro ⟨name, fields, cd, hcd, hlt⟩
  rw [new_leaves_spec, List.mem_flatMap] at hcd
  obtain ⟨f, _, hmem⟩ := hcd
  obtain ⟨s, _, rfl⟩ := List.mem_map.mp hmem
  have := rep_count_le_def_count s.reps
  simp [ColumnDescriptor.new] at hlt
  omega

/-- Concrete primitive node `c`, Required, Int64. -/
def primC : ParquetType :=
  .primitiveType ⟨⟨"c", .required, none⟩, none, none, .int64⟩

/-- Concrete group node `b`, Optional, containing `primC`: the nearest
enclosing group of `c`. -/
def groupB : ParquetType := .groupType ⟨"b", .optional, none⟩ none none [primC]

/-- Concrete top-level group node `a`, Repeated, containing `groupB`. -/
def groupA : ParquetType := .groupType ⟨"a", .repeated, none⟩ none none [groupB]

/-- C5 counterexample: with fields `[a → b → c]` where both `a` and `b`
are groups, the leaf for `c` stores a shared copy of the top-level group
`a`, which differs from the nearest enclosing group `b` of the primitive —
the stored context is a farther ancestor than the claim allows. -/
theorem c5_claim_false :
    ((SchemaDescriptor.new "s" [groupA]).leaves.map (fun cd => cd.base_type)
        = [BaseType.shared groupA])
    ∧ BaseType.shared groupA ≠ BaseType.shared groupB := by
  constructor
  · rfl
  · intro h
    simp only [groupA, groupB] at h
    injection h with h1
    injection h1 with hfi
    exact absurd hfi (by decide)

/-- C5 (amended): each leaf's stored context is derived from its top-level
field, not the nearest enclosing group: a shared copy of the top-level
field whenever that field is a group (promotion from owned to shared
happening on the first descent into children), and an owned copy of the
node itself when the top-level field is the primitive. -/
theorem c5_context_from_top_level (name : String) (fields : List ParquetType) :
    (SchemaDescriptor.new name fields).leaves.map (fun cd => cd.base_type) =
      fields.flatMap (fun f => (leaf_specs f).map (fun _ =>
        match f with
        | ParquetType.primitiveType _ => BaseType.owned f
        | ParquetType.groupType _ _ _ _ => BaseType.shared f)) := by
  rw [new_leaves_spec, List.map_flatMap]
  refine congrArg fields.flatMap (funext fun f => ?_)
  cases f <;>
    simp [List.map_map, Function.comp_def, ColumnDescriptor.new, context_of,
      BaseType.into_arc]

/-- C10: every leaf of a constructed schema comes from one of the top-level
fields; all leaves beneath a top-level group field hold the same shared
copy of that top-level field as their context, while a top-level primitive
field's leaf holds an exclusively-owned copy of its own node. -/
theorem c10_context_ownership (name : String) (fields : List ParquetType)
    (cd : ColumnDescriptor)
    (hcd : cd ∈ (SchemaDescriptor.new name fields).leaves) :
    ∃ f ∈ fields, cd ∈ build_tree f (BaseType.owned f) 0 0 []
      ∧ (∀ fi lt ct gfs, f = ParquetType.groupType fi lt ct gfs →
            cd.base_type = BaseType.shared f)
      ∧ (∀ p, f = ParquetType.primitiveType p →
            cd.base_type = BaseType.owned f) := by
  simp only [SchemaDescriptor.new] at hcd
  rw [List.mem_flatMap] at hcd
  obtain ⟨f, hf, hmem⟩ := hcd
  refine ⟨f, hf, hmem, ?_, ?_⟩
  · rintro fi lt ct gfs rfl
    rw [build_tree_spec] at hmem
    obtain ⟨s, _, rfl⟩ := List.mem_map.mp hmem
    simp [ColumnDescriptor.new, context_of, BaseType.into_arc]
  · rintro p rfl
    rw [build_tree_spec] at hmem
    obtain ⟨s, _, rfl⟩ := List.mem_map.mp hmem
    simp [ColumnDescriptor.new, context_of]

/-- The single leaf produced for fields `[groupA]`. -/
def leafACB : ColumnDescriptor :=
  ColumnDescriptor.new ⟨⟨⟨"c", .required, none⟩, none, none, .int64⟩, 2, 1⟩
    ["a", "b", "c"] (BaseType.shared groupA)

/-- Witness for C10 at the concrete schema `[groupA]`. -/
theorem c10_context_ownership_witness :
    ∃ f ∈ [groupA], leafACB ∈ build_tree f (BaseType.owned f) 0 0 []
      ∧ (∀ fi lt ct gfs, f = ParquetType.groupType fi lt ct gfs →
            leafACB.base_type = BaseType.shared f)
      ∧ (∀ p, f = ParquetType.primitiveType p →
            leafACB.base_type = BaseType.owned f) :=
  c10_context_ownership "s" [groupA] leafACB (by
    show leafACB ∈ (SchemaDescriptor.new "s" [groupA]).leaves
    exact List.Mem.head _)

/-- Witness for C6 at the concrete schema `[groupA]`. -/
theorem c6_level_invariants_witness :
    leafACB.descriptor.max_rep_level ≤ leafACB.descriptor.max_def_level :=
  c6_level_invariants.1 "s" [groupA] leafACB (List.Mem.head _)

/-! ### Boundary representation

The wire codec (`polars_parquet_format::SchemaElement` and
`ParquetType::to_thrift` / `ParquetType::try_from_thrift`) is external to
this source slice; it is modelled from the spec as a pre-order
linearization of the tree into flat elements, each group element carrying
its child count, and a parser reading the same shape back. -/

/-- Modelled from the spec: one flat schema element of the boundary
representation. -/
structure SchemaElement where
  name : String
  repetition : Repetition
  num_children : Option Nat
  physical_type : Option PhysicalType
  id : Option Int
  logical_type : Option Nat
  converted_type : Option Nat
deriving DecidableEq

mutual

/-- Modelled from the spec: linearization of a tree to flat schema
elements, pre-order, each group element carrying its child count. -/
def ParquetType.to_thrift : ParquetType → List SchemaElement
  | .primitiveType p =>
      [⟨p.field_info.name, p.field_info.repetition, none, some p.physical_type,
        p.field_info.id, p.logical_type, p.converted_type⟩]
  | .groupType fi lt ct fields =>
      ⟨fi.name, fi.repetition, some fields.length, none, fi.id, lt, ct⟩ ::
        to_thrift_forest fields

/-- Linearization of an ordered forest. -/
def to_thrift_forest : List ParquetType → List SchemaElement
  | [] => []
  | f :: rest => f.to_thrift ++ to_thrift_forest rest

end

mutual

/-- Modelled from the spec: parse one node from the flat elements,
returning it with the unconsumed remainder; the fuel argument bounds the
recursion and is chosen generously by the caller. -/
def parse_node (fuel : Nat) (es : List SchemaElement) :
    Except ParquetError (ParquetType × List SchemaElement) :=
  match fuel with
  | 0 => .error (ParquetError.oos "exceeded schema nesting bound")
  | fuel + 1 =>
    match es with
    | [] => .error (ParquetError.oos "unexpected end of schema elements")
    | e :: rest =>
      match e.num_children with
      | none =>
        match e.physical_type with
        | some pt =>
            .ok (.primitiveType ⟨⟨e.name, e.repetition, e.id⟩,
              e.logical_type, e.converted_type, pt⟩, rest)
        | none => .error (ParquetError.oos "primitive element lacks a physical type")
      | some n =>
        match parse_children fuel n rest with
        | .ok (children, rest2) =>
            .ok (.groupType ⟨e.name, e.repetition, e.id⟩
              e.logical_type e.converted_type children, rest2)
        | .error err => .error err

/-- Parse `n` consecutive children. -/
def parse_children (fuel : Nat) (n : Nat) (es : List SchemaElement) :
    Except ParquetError (List ParquetType × List SchemaElement) :=
  match n with
  | 0 => .ok ([], es)
  | n + 1 =>
    match fuel with
    | 0 => .error (ParquetError.oos "exceeded schema nesting bound")
    | fuel + 1 =>
      match parse_node fuel es with
      | .ok (c, es2) =>
          match parse_children fuel n es2 with
          | .ok (cs, es3) => .ok (c :: cs, es3)
          | .error err => .error err
      | .error err => .error err

end

/-- Modelled from the spec: `ParquetType::try_from_thrift` — parse the flat
elements back into a tree, propagating the parse error unchanged; the fuel
`2 * elements.length + 1` always suffices for a well-formed input. -/
def ParquetType.try_from_thrift (elements : List SchemaElement) :
    Except ParquetError ParquetType :=
  match parse_node (2 * elements.length + 1) elements with
  | .ok (t, _) => .ok t
  | .error e => .error e

/-- Embedding of `SchemaDescriptor::into_thrift` (lines 65-77): wrap name
and fields in a synthetic Optional group with no id and no logical or
converted type, then linearize. -/
def SchemaDescriptor.into_thrift (s : SchemaDescriptor) : List SchemaElement :=
  (ParquetType.groupType ⟨s.name, .optional, none⟩ none none s.fields).to_thrift

/-- Embedding of `SchemaDescriptor::try_from_type` (lines 79-86): a group
root is unwrapped into a constructed descriptor, anything else is the
group-required error. -/
def SchemaDescriptor.try_from_type (t : ParquetType) :
    Except ParquetError SchemaDescriptor :=
  match t with
  | .groupType fi _ _ fields => .ok (SchemaDescriptor.new fi.name fields)
  | _ => .error (ParquetError.oos "The parquet schema MUST be a group type")

/-- Embedding of `SchemaDescriptor::try_from_thrift` (lines 88-91): decode
through the codec, propagating its error unchanged, then require a group
root. -/
def SchemaDescriptor.try_from_thrift (elements : List SchemaElement) :
    Except ParquetError SchemaDescriptor :=
  match ParquetType.try_from_thrift elements with
  | .ok t => SchemaDescriptor.try_from_type t
  | .error e => .error e

/-- Embedding of `SchemaDescriptor::try_from_message` (lines 94-97), with
the external text parser `from_message` taken as a parameter since its
grammar is outside this source slice: parse, propagating the parser's
error unchanged, then require a group root. -/
def SchemaDescriptor.try_from_message
    (from_message : String → Except ParquetError ParquetType)
    (message : String) : Except ParquetError SchemaDescriptor :=
  match from_message message with
  | .ok t => SchemaDescriptor.try_from_type t
  | .error e => .error e

mutual

/-- Fuel needed by `parse_node` to read back one linearized tree. -/
def ParquetType.parse_cost : ParquetType → Nat
  | .primitiveType _ => 1
  | .groupType _ _ _ fields => forest_parse_cost fields + 1

/-- Fuel needed by `parse_children` to read back a linearized forest. -/
def forest_parse_cost : List ParquetType → Nat
  | [] => 0
  | f :: rest => f.parse_cost + forest_parse_cost rest + 1

end

mutual

theorem parse_cost_le_length (tp : ParquetType) :
    tp.parse_cost + 1 ≤ 2 * tp.to_thrift.length := by
  match tp with
  | .primitiveType p =>
      simp [ParquetType.parse_cost, ParquetType.to_thrift]
  | .groupType fi lt ct fields =>
      have h := forest_parse_cost_le_length fields
      simp only [ParquetType.parse_cost, ParquetType.to_thrift, List.length_cons]
      omega

theorem forest_parse_cost_le_length (fs : List ParquetType) :
    forest_parse_cost fs ≤ 2 * (to_thrift_forest fs).length := by
  match fs with
  | [] => simp [forest_parse_cost, to_thrift_forest]
  | f :: rest =>
      have h1 := parse_cost_le_length f
      have h2 := forest_parse_cost_le_length rest
      simp only [forest_parse_cost, to_thrift_forest, List.length_append]
      omega

end

mutual

/-- Reading back a linearized tree with enough fuel returns the tree and
leaves the remainder untouched. -/
theorem parse_node_to_thrift (tp : ParquetType) (fuel : Nat)
    (rest : List SchemaElement) (hfuel : tp.parse_cost ≤ fuel) :
    parse_node fuel (tp.to_thrift ++ rest) = .ok (tp, rest) := by
  match tp with
  | .primitiveType p =>
      match fuel with
      | 0 => simp [ParquetType.parse_cost] at hfuel
      | fuel + 1 =>
          simp [ParquetType.to_thrift, parse_node]
  | .groupType fi lt ct fields =>
      match fuel with
      | 0 => simp [ParquetType.parse_cost] at hfuel
      | fuel + 1 =>
          have hle : forest_parse_cost fields ≤ fuel := by
            simp only [ParquetType.parse_cost] at hfuel
            omega
          have h := parse_children_to_thrift fields fuel rest hle
          simp [ParquetType.to_thrift, parse_node, h]

/-- Reading back a linearized forest of known length with enough fuel. -/
theorem parse_children_to_thrift (fs : List ParquetType) (fuel : Nat)
    (rest : List SchemaElement) (hfuel : forest_parse_cost fs ≤ fuel) :
    parse_children fuel fs.length (to_thrift_forest fs ++ rest)
      = .ok (fs, rest) := by
  match fs with
  | [] => simp [to_thrift_forest, parse_children]
  | f :: frest =>
      match fuel with
      | 0 => simp [forest_parse_cost] at hfuel
      | fuel + 1 =>
          have hcosts : f.parse_cost ≤ fuel ∧ forest_parse_cost frest ≤ fuel := by
            simp only [forest_parse_cost] at hfuel
            omega
          have h1 := parse_node_to_thrift f fuel (to_thrift_forest frest ++ rest)
            hcosts.1
          have h2 := parse_children_to_thrift frest fuel rest hcosts.2
          simp [to_thrift_forest, parse_children, List.append_assoc, h1, h2]

end

/-- The codec roundtrip on one tree. -/
theorem try_from_thrift_to_thrift (tp : ParquetType) :
    ParquetType.try_from_thrift tp.to_thrift = .ok tp := by
  have hcost : tp.parse_cost ≤ 2 * tp.to_thrift.length + 1 := by
    have := parse_cost_le_length tp
    omega
  have h := parse_node_to_thrift tp (2 * tp.to_thrift.length + 1) [] hcost
  rw [List.append_nil] at h
  simp [ParquetType.try_from_thrift, h]

/-- C4: converting a constructed descriptor to the boundary representation
and parsing it back reproduces the descriptor exactly — same name, same
fields, and hence the same derived leaves with their paths, levels and
primitive descriptors. -/
theorem c4_boundary_roundtrip (name : String) (fields : List ParquetType) :
    SchemaDescriptor.try_from_thrift (SchemaDescriptor.new name fields).into_thrift
      = .ok (SchemaDescriptor.new name fields) := by
  have h := try_from_thrift_to_thrift
    (ParquetType.groupType ⟨name, .optional, none⟩ none none fields)
  simp only [SchemaDescriptor.into_thrift, SchemaDescriptor.new] at h ⊢
  rw [SchemaDescriptor.try_from_thrift, h]
  rfl

/-- C7: the boundary representation of any descriptor starts with a
synthetic group element carrying the descriptor's name, Optional
repetition, the top-level field count as child count, and no physical
type, no id, no logical type and no converted type, followed by the
linearized fields. -/
theorem c7_synthetic_root (s : SchemaDescriptor) :
    s.into_thrift
      = ⟨s.name, Repetition.optional, some s.fields.length, none, none, none, none⟩
          :: to_thrift_forest s.fields := by
  simp [SchemaDescriptor.into_thrift, ParquetType.to_thrift]

/-- C8: a non-group decoded/parsed top-level node fails with the distinct
group-required error and yields no descriptor, while a group top-level
node succeeds with a descriptor constructed from the root's name and
children; both boundary entry points defer to `try_from_type` whenever
decoding or parsing itself succeeded. -/
theorem c8_group_required :
    (∀ p : PrimitiveType,
        SchemaDescriptor.try_from_type (.primitiveType p)
          = .error (ParquetError.oos "The parquet schema MUST be a group type"))
    ∧ (∀ (fi : FieldInfo) (lt ct : Option Nat) (gfs : List ParquetType),
        SchemaDescriptor.try_from_type (.groupType fi lt ct gfs)
          = .ok (SchemaDescriptor.new fi.name gfs))
    ∧ (∀ (elements : List SchemaElement) (t : ParquetType),
        ParquetType.try_from_thrift elements = .ok t →
          SchemaDescriptor.try_from_thrift elements
            = SchemaDescriptor.try_from_type t)
    ∧ (∀ (from_message : String → Except ParquetError ParquetType)
          (message : String) (t : ParquetType),
        from_message message = .ok t →
          SchemaDescriptor.try_from_message from_message message
            = SchemaDescriptor.try_from_type t) := by
  refine ⟨fun p => rfl, fun fi lt ct gfs => rfl, ?_, ?_⟩
  · intro elements t h
    simp [SchemaDescriptor.try_from_thrift, h]
  · intro fm msg t h
    simp [SchemaDescriptor.try_from_message, h]

/-- Witness for C8: a primitive root is rejected with the group-required
error, and a concrete flat sequence that decodes to a primitive root is
routed to that same rejection. -/
theorem c8_group_required_witness :
    (SchemaDescriptor.try_from_type primC
        = .error (ParquetError.oos "The parquet schema MUST be a group type"))
    ∧ SchemaDescriptor.try_from_thrift primC.to_thrift
        = SchemaDescriptor.try_from_type primC :=
  ⟨c8_group_required.1 ⟨⟨"c", .required, none⟩, none, none, .int64⟩,
   c8_group_required.2.2.1 primC.to_thrift primC (by rfl)⟩

/-- C9: an error produced by the external codec or text parser is returned
to the caller of the boundary entry points exactly as produced — never
wrapped, transformed or swallowed — and no descriptor is constructed. -/
theorem c9_error_passthrough :
    (∀ (elements : List SchemaElement) (e : ParquetError),
        ParquetType.try_from_thrift elements = .error e →
          SchemaDescriptor.try_from_thrift elements = .error e)
    ∧ (∀ (from_message : String → Except ParquetError ParquetType)
          (message : String) (e : ParquetError),
        from_message message = .error e →
          SchemaDescriptor.try_from_message from_message message = .error e) := by
  constructor
  · intro elements e h
    simp [SchemaDescriptor.try_from_thrift, h]
  · intro fm msg e h
    simp [SchemaDescriptor.try_from_message, h]

/-- Witness for C9: the empty element sequence fails inside the codec and
that exact error surfaces from `try_from_thrift`; a text parser failing
with a fixed error has that error surface from `try_from_message`. -/
theorem c9_error_passthrough_witness :
    (SchemaDescriptor.try_from_thrift []
        = .error (ParquetError.oos "unexpected end of schema elements"))
    ∧ SchemaDescriptor.try_from_message
          (fun _ => .error (ParquetError.oos "malformed text")) "message t"
        = .error (ParquetError.oos "malformed text") :=
  ⟨c9_error_passthrough.1 [] (ParquetError.oos "unexpected end of schema elements")
      (by rfl),
   c9_error_passthrough.2 (fun _ => .error (ParquetError.oos "malformed text"))
      "message t" (ParquetError.oos "malformed text") rfl⟩

end PolarsParquet
